import Mathlib

/-!
Verification of the Hazmapper QGIS plugin core against its specification.

Shallow embedding of:
* `src/hazmapper_plugin/utils/ui.py` (`make_ui_pacer` / `update_progress_maybe`)
* `src/Hazmapper/hazmapper_fetch_task.py` (`LoadGeoApiProjectTask.run` / `finished`)
* `src/hazmapper_plugin/hazmapper_layers.py` (`add_basemap_layers`, `add_features_layers`)
* `src/Hazmapper/utils/qgis.py` (`zoom_to_group`)

Conventions: Python floats (timestamps, opacities, coordinates) are modelled as ℚ;
Python exceptions as `Except String`; host (QGIS/Qt/GDAL) behaviour that the code
merely calls into is supplied through explicit "host" records of functions.
-/

namespace Hazmapper

open scoped List

/-! ## UI pacer (`src/hazmapper_plugin/utils/ui.py`) -/

/-- The closed-over mutable cell `last = [0.0]` of `make_ui_pacer`. -/
structure PacerState where
  last : ℚ
deriving Repr, DecidableEq

/-- Observable outcome of one call to `update_progress_maybe`:
whether the progress sink was invoked, whether
`QApplication.processEvents` (the cooperative yield) ran, and the
resulting pacer state. -/
structure UpdateResult where
  sinkInvoked : Bool
  yielded : Bool
  state : PacerState
deriving Repr, DecidableEq

/-- Model of `update_progress_maybe(msg=None, pct=None, *, force=False)` from
`make_ui_pacer`.  `sink` is the captured `progress_cb` (possibly `None`);
a sink raising an exception is a sink returning `.error`.  `now` is the
value of `time.perf_counter()` at the call.  The result is an `Except`
so that an exception escaping the function would be visible as
`.error`; the `try/except: pass` around the sink call is the inner
match folding both sink outcomes to `.ok ()`. -/
def updateProgressMaybe (interval : ℚ) (sink : Option (String → Int → Except String Unit))
    (st : PacerState) (now : ℚ) (msg : Option String) (pct : Option Int)
    (force : Bool) : Except String UpdateResult :=
  if force || decide (now - st.last ≥ interval) then
    let invoked := sink.isSome && (msg.isSome || pct.isSome)
    let sinkStep : Except String Unit :=
      match sink with
      | some cb =>
        if msg.isSome || pct.isSome then
          match cb (msg.getD "") (pct.getD 0) with
          | .ok _ => .ok ()
          | .error _ => .ok ()
        else .ok ()
      | none => .ok ()
    sinkStep.bind fun _ =>
      .ok { sinkInvoked := invoked, yielded := true, state := { last := now } }
  else
    .ok { sinkInvoked := false, yielded := false, state := st }

/-- Lemma: `updateProgressMaybe` always returns `.ok` of a result fully determined
by the throttling gate `force || now - last ≥ interval`. -/
theorem updateProgressMaybe_eq (interval : ℚ)
    (sink : Option (String → Int → Except String Unit))
    (st : PacerState) (now : ℚ) (msg : Option String) (pct : Option Int)
    (force : Bool) :
    updateProgressMaybe interval sink st now msg pct force =
      .ok (if force || decide (now - st.last ≥ interval) then
            { sinkInvoked := sink.isSome && (msg.isSome || pct.isSome),
              yielded := true, state := { last := now } }
          else { sinkInvoked := false, yielded := false, state := st }) := by
  unfold updateProgressMaybe
  by_cases h : (force || decide (now - st.last ≥ interval)) = true
  · simp only [h, if_pos]
    cases sink with
    | none => rfl
    | some cb =>
      by_cases hm : (msg.isSome || pct.isSome) = true
      · simp only [hm, if_pos]
        cases cb (msg.getD "") (pct.getD 0) <;> rfl
      · simp only [hm, if_neg, Bool.false_eq_true, not_false_eq_true]
        rfl
  · simp only [h, if_neg, Bool.false_eq_true, not_false_eq_true]

/-- Fire counter used to state the throttling bound: run a sequence of
non-forced calls (each carrying a message and a percentage, with a
well-behaved sink) at the given timestamps and count sink invocations. -/
def pacerFireCount (interval : ℚ) : PacerState → List ℚ → ℕ
  | _, [] => 0
  | st, t :: ts =>
    match updateProgressMaybe interval (some fun _ _ => .ok ()) st t
        (some "update") (some 0) false with
    | .ok r => (if r.sinkInvoked then 1 else 0) + pacerFireCount interval r.state ts
    | .error _ => 0

theorem pacerFireCount_cons (interval : ℚ) (st : PacerState) (t : ℚ) (ts : List ℚ) :
    pacerFireCount interval st (t :: ts) =
      if t - st.last ≥ interval then 1 + pacerFireCount interval { last := t } ts
      else pacerFireCount interval st ts := by
  rw [pacerFireCount, updateProgressMaybe_eq]
  by_cases h : t - st.last ≥ interval
  · simp [h]
  · simp [h]

/-- Once the pacer state's `last` is at a call time `L ≤ T` and all remaining
calls happen at nondecreasing times in `[L, T]`, the number of further fires
`k` satisfies `k * interval ≤ (T - L) + interval`: consecutive fires are at
least `interval` apart. -/
theorem pacerFireCount_mul_le (interval T : ℚ) (hpos : 0 < interval) :
    ∀ (ts : List ℚ) (L : ℚ), L ≤ T → ts.Pairwise (· ≤ ·) →
      (∀ t ∈ ts, t ≤ T) → (∀ t ∈ ts, L ≤ t) →
      (pacerFireCount interval { last := L } ts : ℚ) * interval ≤ (T - L) + interval := by
  intro ts
  induction ts with
  | nil =>
    intro L hLT _ _ _
    simp only [pacerFireCount, Nat.cast_zero, zero_mul]
    linarith
  | cons t ts ih =>
    intro L hLT hsort hub hlb
    have htT : t ≤ T := hub t (List.mem_cons_self t ts)
    have hLt : L ≤ t := hlb t (List.mem_cons_self t ts)
    have hts_ub : ∀ u ∈ ts, u ≤ T := fun u hu => hub u (List.mem_cons_of_mem t hu)
    have hts_ge_t : ∀ u ∈ ts, t ≤ u := fun u hu => (List.pairwise_cons.mp hsort).1 u hu
    have hts_sort : ts.Pairwise (· ≤ ·) := (List.pairwise_cons.mp hsort).2
    rw [pacerFireCount_cons]
    by_cases hfire : t - L ≥ interval
    · rw [if_pos hfire]
      have h2 := ih t htT hts_sort hts_ub hts_ge_t
      push_cast
      nlinarith
    · rw [if_neg hfire]
      have hts_ge_L : ∀ u ∈ ts, L ≤ u := fun u hu => le_trans hLt (hts_ge_t u hu)
      exact ih L hLT hts_sort hts_ub hts_ge_L

/-- From an arbitrary starting state, over nondecreasing non-forced call times
inside `[t0, T]`, the number of sink invocations is at most `n + 1` whenever
`n` dominates every `k` with `k * interval ≤ (T - t0) + interval`. -/
theorem pacerFireCount_le (interval t0 T : ℚ) (n : ℕ) (hpos : 0 < interval)
    (hn : ∀ k : ℕ, (k : ℚ) * interval ≤ (T - t0) + interval → k ≤ n) :
    ∀ (ts : List ℚ) (st : PacerState), ts.Pairwise (· ≤ ·) →
      (∀ t ∈ ts, t0 ≤ t ∧ t ≤ T) → pacerFireCount interval st ts ≤ n + 1 := by
  intro ts
  induction ts with
  | nil =>
    intro st _ _
    simp [pacerFireCount]
  | cons t ts ih =>
    intro st hsort hbnd
    have htb := hbnd t (List.mem_cons_self t ts)
    have hts_bnd : ∀ u ∈ ts, t0 ≤ u ∧ u ≤ T :=
      fun u hu => hbnd u (List.mem_cons_of_mem t hu)
    have hts_ge_t : ∀ u ∈ ts, t ≤ u := fun u hu => (List.pairwise_cons.mp hsort).1 u hu
    have hts_sort : ts.Pairwise (· ≤ ·) := (List.pairwise_cons.mp hsort).2
    rw [pacerFireCount_cons]
    by_cases hfire : t - st.last ≥ interval
    · rw [if_pos hfire]
      have hmul := pacerFireCount_mul_le interval T hpos ts t htb.2 hts_sort
        (fun u hu => (hts_bnd u hu).2) hts_ge_t
      have hk : (pacerFireCount interval { last := t } ts : ℚ) * interval ≤
          (T - t0) + interval := by
        have : (T - t : ℚ) + interval ≤ (T - t0) + interval := by linarith [htb.1]
        exact le_trans hmul this
      have := hn _ hk
      omega
    · rw [if_neg hfire]
      exact le_trans (ih st hts_sort hts_bnd) (Nat.le_refl _)

set_option maxRecDepth 8000 in
/-- Claim C8. The pacer is a pure rate limiter: (1) every call returns normally and
yields/invokes exactly according to the gate `force ∨ now - last ≥ interval`,
leaving the state untouched (nothing queued) on a dropped call; (2) a call with
`force=true`, a present sink and a message always invokes the sink; (3) 1000
calls spaced 1 ms apart, at any starting time and from any pacer state, produce
at most `⌈0.999 s / 0.3 s⌉ + 1 = 5` sink invocations. -/
theorem pacer_update_throttles :
    (∀ (interval : ℚ) (sink : Option (String → Int → Except String Unit))
        (st : PacerState) (now : ℚ) (msg : Option String) (pct : Option Int)
        (force : Bool),
      updateProgressMaybe interval sink st now msg pct force =
        .ok (if force || decide (now - st.last ≥ interval) then
              { sinkInvoked := sink.isSome && (msg.isSome || pct.isSome),
                yielded := true, state := { last := now } }
            else { sinkInvoked := false, yielded := false, state := st }))
    ∧ (∀ (interval : ℚ) (sink : Option (String → Int → Except String Unit))
        (st : PacerState) (now : ℚ) (msg : Option String) (pct : Option Int),
        sink.isSome = true → (msg.isSome = true ∨ pct.isSome = true) →
        ∃ r, updateProgressMaybe interval sink st now msg pct true = .ok r ∧
          r.sinkInvoked = true ∧ r.yielded = true)
    ∧ (∀ (t0 : ℚ) (st : PacerState),
        pacerFireCount (3/10) st
          ((List.range 1000).map fun (k : ℕ) => t0 + (k : ℚ) / 1000) ≤ 5) := by
  refine ⟨updateProgressMaybe_eq, ?_, ?_⟩
  · intro interval sink st now msg pct hs hm
    refine ⟨_, updateProgressMaybe_eq interval sink st now msg pct true, ?_, ?_⟩
    · simp only [Bool.true_or, if_pos]
      simp [hs]
      rcases hm with h | h <;> simp [h]
    · simp
  · intro t0 st
    have hpos : (0 : ℚ) < 3/10 := by norm_num
    have hn : ∀ k : ℕ, (k : ℚ) * (3/10) ≤ ((t0 + 999/1000) - t0) + 3/10 → k ≤ 4 := by
      intro k hk
      have hq : (k : ℚ) ≤ 433/100 := by linarith
      have h5 : (k : ℚ) < 5 := lt_of_le_of_lt hq (by norm_num)
      have h5n : k < 5 := by exact_mod_cast h5
      omega
    have hsort : ((List.range 1000).map fun (k : ℕ) => t0 + (k : ℚ) / 1000).Pairwise (· ≤ ·) := by
      refine (List.pairwise_lt_range 1000).map (fun (k : ℕ) => t0 + (k : ℚ) / 1000) ?_
      intro a b hab
      have hc : (a : ℚ) ≤ (b : ℚ) := by exact_mod_cast Nat.le_of_lt hab
      have hdiv : (a : ℚ) / 1000 ≤ (b : ℚ) / 1000 := by linarith
      linarith
    have hbnd : ∀ t ∈ (List.range 1000).map fun (k : ℕ) => t0 + (k : ℚ) / 1000,
        t0 ≤ t ∧ t ≤ t0 + 999/1000 := by
      intro t ht
      rcases List.mem_map.mp ht with ⟨k, hk, rfl⟩
      have hk999 : k ≤ 999 := by
        have := List.mem_range.mp hk
        omega
      have hkq : (k : ℚ) ≤ 999 := by exact_mod_cast hk999
      constructor
      · have : (0 : ℚ) ≤ (k : ℚ) / 1000 := by positivity
        linarith
      · have : (k : ℚ) / 1000 ≤ 999/1000 := by linarith
        linarith
    have := pacerFireCount_le (3/10) t0 (t0 + 999/1000) 4 hpos hn
      ((List.range 1000).map fun (k : ℕ) => t0 + (k : ℚ) / 1000) st hsort hbnd
    omega

/-- Witness for C8: the `force=true` conjunct at a concrete input. -/
theorem pacer_update_throttles_witness :
    ∃ r, updateProgressMaybe 1 (some fun _ _ => Except.ok ()) { last := 0 } 0
        (some "hello") none true = .ok r ∧ r.sinkInvoked = true ∧ r.yielded = true :=
  pacer_update_throttles.2.1 1 (some fun _ _ => Except.ok ()) { last := 0 } 0
    (some "hello") none rfl (Or.inl rfl)

/-- Claim C10. A raising sink is swallowed by `update_progress_maybe`: when the
gate is open and the caller-supplied sink raises, the call still returns
normally (`.ok`, never `.error`), the cooperative yield happens, and the
timestamp is updated to `now`. -/
theorem pacer_sink_exception_swallowed (interval : ℚ) (st : PacerState) (now : ℚ)
    (m : String) (pct : Option Int) (force : Bool)
    (cb : String → Int → Except String Unit) (e : String)
    (_hraise : cb m (pct.getD 0) = .error e)
    (hgate : force = true ∨ interval ≤ now - st.last) :
    updateProgressMaybe interval (some cb) st now (some m) pct force =
      .ok { sinkInvoked := true, yielded := true, state := { last := now } } := by
  rw [updateProgressMaybe_eq]
  have hg : (force || decide (now - st.last ≥ interval)) = true := by
    rcases hgate with h | h
    · simp [h]
    · simp [h]
  rw [if_pos hg]
  simp

/-- Witness for C10 at a concrete raising sink. -/
theorem pacer_sink_exception_swallowed_witness :
    updateProgressMaybe 1 (some fun _ _ => Except.error "boom") { last := 0 } 2
        (some "msg") (some 50) false =
      .ok { sinkInvoked := true, yielded := true, state := { last := 2 } } :=
  pacer_sink_exception_swallowed 1 { last := 0 } 2 "msg" (some 50) false
    (fun _ _ => Except.error "boom") "boom" rfl (Or.inr (by norm_num))

/-! ## Fetch orchestrator (`src/Hazmapper/hazmapper_fetch_task.py`) -/

/-- The `GeoApiStep` string constants, as an enumeration. -/
inductive GeoApiStep where
  | project
  | basemapLayers
  | features
deriving Repr, DecidableEq

/-- The one field of the project payload that `run` reads
(`project.get("id")`); the rest of the dict is irrelevant to control flow
and summarized by `extra`. -/
structure ProjectPayload where
  id : Option Nat
  extra : Nat
deriving Repr, DecidableEq

/-- Raw basemap payload entry; opaque to `run`. -/
abbrev RawBasemapEntry := Nat

/-- Raw features payload: a JSON object, modelled as an association list so
that Python dict truthiness (`if not features`) is emptiness. -/
abbrev RawFeaturesDict := List (String × Nat)

/-- A payload carried by a `progress_data` signal. -/
inductive GeoApiPayload where
  | projectP (p : ProjectPayload)
  | basemapP (l : List RawBasemapEntry)
  | featuresP (d : RawFeaturesDict)
deriving Repr, DecidableEq

/-- Signals emitted by the task towards the UI. -/
inductive GeoApiEvent where
  | statusUpdate (state : String) (message : String)
  | progressData (step : GeoApiStep) (payload : GeoApiPayload)
  | taskDone (success : Bool) (message : Option String)
deriving Repr, DecidableEq

/-- One HTTP GET issued by `_request_data_from_backend`, identified by its
endpoint shape (`/?uuid={uuid}`, `/{project_id}/tile-servers/`,
`/{project_id}/features/?assetType=...`).  `project_id` is the value of
`project.get("id")`. -/
inductive GeoApiRequest where
  | projectReq (uuid : String)
  | tileServersReq (projectId : Option Nat)
  | featuresReq (projectId : Option Nat)
deriving Repr, DecidableEq

/-- The backend as seen by one load: the response to each of the three GETs.
`.error cause` models a transport error, a non-200 status, or a JSON decode
failure inside `_request_data_from_backend` (all collapse to the same
`except` branch there); `.ok` is a 200 with decoded JSON.  The tile-server
and features responses may depend on the `project_id` in the URL. -/
structure GeoApiEnv where
  projectResp : Except String (List ProjectPayload)
  basemapResp : Option Nat → Except String (List RawBasemapEntry)
  featuresResp : Option Nat → Except String RawFeaturesDict

/-- Events emitted by `_request_data_from_backend` before the response
arrives: one RUNNING status with the user description. -/
def requestEvents (userDescription : String) : List GeoApiEvent :=
  [.statusUpdate "running" ("Fetching " ++ userDescription ++ "...")]

/-- The consolidated error message built in the `except` branch of
`_request_data_from_backend`. -/
def fetchFailMsg (userDescription cause : String) : String :=
  "Fetching " ++ userDescription ++ " failed: " ++ cause

/-- Observable outcome of `LoadGeoApiProjectTask.run` (plus, for
`runTaskFinished`, the `finished` callback): emitted events, issued
requests, the boolean returned by `run`, the final `self.error`, and the
final `self.project_id`. -/
structure RunOutcome where
  events : List GeoApiEvent
  requests : List GeoApiRequest
  success : Bool
  error : Option String
  projectId : Option Nat
deriving Repr, DecidableEq

/-- Model of `LoadGeoApiProjectTask.run`.  Each step calls
`_request_data_from_backend` (status event + request + `Except` response);
`if not <result>` treats both a failed request (`None`) and an empty parsed
result as falsy; on the falsy path `run` returns `False`, with `self.error`
set only when an exception occurred. -/
def runTask (uuid : String) (env : GeoApiEnv) : RunOutcome :=
  let ev1 := requestEvents "project metadata"
  let rq1 := [GeoApiRequest.projectReq uuid]
  match env.projectResp with
  | .error cause =>
    { events := ev1, requests := rq1, success := false,
      error := some (fetchFailMsg "project metadata" cause), projectId := none }
  | .ok projects =>
    match projects with
    | [] =>
      -- `if not projects: return False` with `self.error` still `None`
      { events := ev1, requests := rq1, success := false,
        error := none, projectId := none }
    | project :: _ =>
      let projectId := project.id
      let ev2 := ev1 ++ [.progressData .project (.projectP project)]
      let ev3 := ev2 ++ requestEvents "map data (basemap/tile layers)"
      let rq2 := rq1 ++ [GeoApiRequest.tileServersReq projectId]
      match env.basemapResp projectId with
      | .error cause =>
        { events := ev3, requests := rq2, success := false,
          error := some (fetchFailMsg "map data (basemap/tile layers)" cause),
          projectId := projectId }
      | .ok basemapLayers =>
        match basemapLayers with
        | [] =>
          { events := ev3, requests := rq2, success := false,
            error := none, projectId := projectId }
        | _ :: _ =>
          let ev4 := ev3 ++ [.progressData .basemapLayers (.basemapP basemapLayers)]
          let ev5 := ev4 ++ requestEvents "map data (features)"
          let rq3 := rq2 ++ [GeoApiRequest.featuresReq projectId]
          match env.featuresResp projectId with
          | .error cause =>
            { events := ev5, requests := rq3, success := false,
              error := some (fetchFailMsg "map data (features)" cause),
              projectId := projectId }
          | .ok features =>
            match features with
            | [] =>
              { events := ev5, requests := rq3, success := false,
                error := none, projectId := projectId }
            | _ :: _ =>
              { events := ev5 ++ [.progressData .features (.featuresP features)],
                requests := rq3, success := true, error := none,
                projectId := projectId }

/-- The terminal `task_done` signal emitted by
`LoadGeoApiProjectTask.finished(success)`. -/
def finishedEvent (o : RunOutcome) : GeoApiEvent :=
  if o.success then .taskDone true (some "Finished fetching data")
  else .taskDone false o.error

/-- Composition: `run` followed by the framework calling `finished(run result)`. -/
def runTaskFinished (uuid : String) (env : GeoApiEnv) : RunOutcome :=
  let o := runTask uuid env
  { o with events := o.events ++ [finishedEvent o] }

/-- Abstract shape of an emitted event, used to state temporal ordering. -/
inductive TraceTag where
  | fetching (step : GeoApiStep)
  | stepResult (step : GeoApiStep)
  | terminal (success : Bool)
deriving Repr, DecidableEq

/-- Classify an emitted event by shape; RUNNING statuses are identified by
the exact user descriptions used in `run`. -/
def tagOf : GeoApiEvent → Option TraceTag
  | .statusUpdate _ m =>
    if m = "Fetching project metadata..." then some (.fetching .project)
    else if m = "Fetching map data (basemap/tile layers)..." then
      some (.fetching .basemapLayers)
    else if m = "Fetching map data (features)..." then some (.fetching .features)
    else none
  | .progressData s _ => some (.stepResult s)
  | .taskDone b _ => some (.terminal b)

/-- Did the project step succeed (non-exception, non-empty list)? -/
def projectStepOk (env : GeoApiEnv) : Bool :=
  match env.projectResp with
  | .ok (_ :: _) => true
  | _ => false

/-- The `project_id` that a successful project step yields. -/
def envProjectId (env : GeoApiEnv) : Option Nat :=
  match env.projectResp with
  | .ok (p :: _) => p.id
  | _ => none

/-- Did the basemap step succeed (given the project step did)? -/
def basemapStepOk (env : GeoApiEnv) : Bool :=
  match env.basemapResp (envProjectId env) with
  | .ok (_ :: _) => true
  | _ => false

/-- Did the features step succeed (given the two previous steps did)? -/
def featuresStepOk (env : GeoApiEnv) : Bool :=
  match env.featuresResp (envProjectId env) with
  | .ok (_ :: _) => true
  | _ => false

/-- The spec's temporal contract as a trace of event shapes: steps strictly
in order Project, Basemap, Features; each step's result emitted before the
next step begins; no step after a failure; exactly one terminal event,
successful exactly when all three steps succeeded. -/
def specTrace (env : GeoApiEnv) : List TraceTag :=
  if ¬projectStepOk env then
    [.fetching .project, .terminal false]
  else if ¬basemapStepOk env then
    [.fetching .project, .stepResult .project,
     .fetching .basemapLayers, .terminal false]
  else if ¬featuresStepOk env then
    [.fetching .project, .stepResult .project,
     .fetching .basemapLayers, .stepResult .basemapLayers,
     .fetching .features, .terminal false]
  else
    [.fetching .project, .stepResult .project,
     .fetching .basemapLayers, .stepResult .basemapLayers,
     .fetching .features, .stepResult .features, .terminal true]

/-- Is an event a terminal (`task_done`) event? -/
def isTerminal : GeoApiEvent → Bool
  | .taskDone _ _ => true
  | _ => false

/-- Is an event the terminal success event? -/
def isTerminalSuccess : GeoApiEvent → Bool
  | .taskDone true _ => true
  | _ => false

/-- Is an event the step-result (`progress_data`) event of step `s`? -/
def isStepResultFor (s : GeoApiStep) : GeoApiEvent → Bool
  | .progressData s2 _ => s2 == s
  | _ => false

/-- Claim C1. For every load: the emitted trace, classified by shape, is exactly
the spec's temporal contract (steps Project, Basemap, Features strictly in
order, each step's result event before the next step's RUNNING status, no step
after a failed step); there is exactly one terminal event; it is a success
event exactly when the Features step (and so all three steps) succeeded. -/
theorem run_emits_steps_in_order (uuid : String) (env : GeoApiEnv) :
    ((runTaskFinished uuid env).events.filterMap tagOf = specTrace env)
    ∧ ((runTaskFinished uuid env).events.countP isTerminal = 1)
    ∧ ((runTaskFinished uuid env).events.countP isTerminalSuccess =
        if (runTask uuid env).success then 1 else 0)
    ∧ ((runTask uuid env).success =
        (projectStepOk env && basemapStepOk env && featuresStepOk env)) := by
  rcases h1 : env.projectResp with cause | projects
  · simp [runTaskFinished, runTask, finishedEvent, requestEvents, specTrace,
      projectStepOk, envProjectId, h1, tagOf, isTerminal, isTerminalSuccess]
  · rcases projects with _ | ⟨p, ps⟩
    · simp [runTaskFinished, runTask, finishedEvent, requestEvents, specTrace,
        projectStepOk, envProjectId, h1, tagOf, isTerminal, isTerminalSuccess]
    · have hpid : envProjectId env = p.id := by simp [envProjectId, h1]
      rcases h2 : env.basemapResp p.id with cause2 | bms
      · simp [runTaskFinished, runTask, finishedEvent, requestEvents, specTrace,
          projectStepOk, basemapStepOk, envProjectId, h1, h2, hpid, tagOf,
          isTerminal, isTerminalSuccess]
      · rcases bms with _ | ⟨b, bs⟩
        · simp [runTaskFinished, runTask, finishedEvent, requestEvents, specTrace,
            projectStepOk, basemapStepOk, envProjectId, h1, h2, hpid, tagOf,
            isTerminal, isTerminalSuccess]
        · rcases h3 : env.featuresResp p.id with cause3 | fts
          · simp [runTaskFinished, runTask, finishedEvent, requestEvents, specTrace,
              projectStepOk, basemapStepOk, featuresStepOk, envProjectId, h1, h2, h3,
              hpid, tagOf, isTerminal, isTerminalSuccess]
          · rcases fts with _ | ⟨f, fs⟩
            · simp [runTaskFinished, runTask, finishedEvent, requestEvents, specTrace,
                projectStepOk, basemapStepOk, featuresStepOk, envProjectId, h1, h2, h3,
                hpid, tagOf, isTerminal, isTerminalSuccess]
            · simp [runTaskFinished, runTask, finishedEvent, requestEvents, specTrace,
                projectStepOk, basemapStepOk, featuresStepOk, envProjectId, h1, h2, h3,
                hpid, tagOf, isTerminal, isTerminalSuccess]

/-- Claim C2. If the project step succeeds but the basemap step parses to an
empty (falsy) list, `run` returns `False`, the request list stops at the
tile-servers request (no features request is ever issued), and neither a
basemap step-result event nor any Features-step event is emitted. -/
theorem empty_basemap_skips_features (uuid : String) (env : GeoApiEnv)
    (hproj : projectStepOk env = true)
    (hbm : env.basemapResp (envProjectId env) = .ok []) :
    (runTask uuid env).success = false
    ∧ (runTask uuid env).requests =
        [.projectReq uuid, .tileServersReq (envProjectId env)]
    ∧ (∀ pid, GeoApiRequest.featuresReq pid ∉ (runTask uuid env).requests)
    ∧ (runTask uuid env).events.countP (isStepResultFor .basemapLayers) = 0
    ∧ (runTask uuid env).events.countP (isStepResultFor .features) = 0
    ∧ (runTask uuid env).events.countP (fun e => tagOf e == some (.fetching .features)) = 0 := by
  rcases h1 : env.projectResp with cause | projects
  · simp [projectStepOk, h1] at hproj
  · rcases projects with _ | ⟨p, ps⟩
    · simp [projectStepOk, h1] at hproj
    · have hpid : envProjectId env = p.id := by simp [envProjectId, h1]
      rw [hpid] at hbm
      refine ⟨?_, ?_, ?_, ?_, ?_, ?_⟩ <;>
        simp [runTask, requestEvents, h1, hbm, hpid, tagOf, isStepResultFor]

/-- A concrete backend for witnesses: the project step succeeds with id 7,
the basemap step parses to the empty list. -/
def sampleEmptyBasemapEnv : GeoApiEnv where
  projectResp := .ok [{ id := some 7, extra := 0 }]
  basemapResp := fun _ => .ok []
  featuresResp := fun _ => .error "unreachable"

/-- Witness for C2 at a concrete environment. -/
theorem empty_basemap_skips_features_witness :
    (runTask "abc" sampleEmptyBasemapEnv).success = false
    ∧ (runTask "abc" sampleEmptyBasemapEnv).requests =
        [.projectReq "abc", .tileServersReq (envProjectId sampleEmptyBasemapEnv)]
    ∧ (runTask "abc" sampleEmptyBasemapEnv).events.countP
        (isStepResultFor .basemapLayers) = 0 := by
  have h := empty_basemap_skips_features "abc" sampleEmptyBasemapEnv rfl rfl
  exact ⟨h.1, h.2.1, h.2.2.2.1⟩

/-! ## Basemap layer materialization
(`add_basemap_layers` in `src/hazmapper_plugin/hazmapper_layers.py`) -/

/-- The `uiOptions` sub-dict of a basemap descriptor; both keys are read
with `.get(..., default)`. -/
structure UiOptions where
  zIndex : Option Int
  opacity : Option ℚ
deriving Repr, DecidableEq

/-- One raw basemap/tile-server descriptor.  `name`, `url` and `type` are
accessed by direct indexing; `uiOptions` likewise (hence `Option`: a missing
key raises `KeyError`).  `tileOptions` is never read by the code. -/
structure BasemapDesc where
  name : String
  url : String
  layerType : String
  uiOptions : Option UiOptions
deriving Repr, DecidableEq

/-- The sort key `lambda x: x["uiOptions"].get("zIndex", 0)`: raises
(`.error`) when `uiOptions` is missing. -/
def basemapSortKey (d : BasemapDesc) : Except String Int :=
  match d.uiOptions with
  | none => .error "KeyError: uiOptions"
  | some ui => .ok (ui.zIndex.getD 0)

/-- The sort key when it cannot raise. -/
def pureKey (d : BasemapDesc) : Int :=
  match d.uiOptions with
  | some ui => ui.zIndex.getD 0
  | none => 0

/-- The decoration pass of `sorted(layers, key=...)`: the key is computed
for every element (raising on the first element without `uiOptions`),
paired with the element's input position. -/
def keyedBasemapsGo : ℕ → List BasemapDesc → Except String (List (Int × ℕ × BasemapDesc))
  | _, [] => .ok []
  | i, d :: ds =>
    match basemapSortKey d with
    | .error e => .error e
    | .ok k => (keyedBasemapsGo (i + 1) ds).map fun rest => (k, i, d) :: rest

def keyedBasemaps (layers : List BasemapDesc) :
    Except String (List (Int × ℕ × BasemapDesc)) :=
  keyedBasemapsGo 0 layers

/-- The decoration when no key raises. -/
def keyedPureGo : ℕ → List BasemapDesc → List (Int × ℕ × BasemapDesc)
  | _, [] => []
  | i, d :: ds => (pureKey d, i, d) :: keyedPureGo (i + 1) ds

def keyedPure (layers : List BasemapDesc) : List (Int × ℕ × BasemapDesc) :=
  keyedPureGo 0 layers

/-- Lexicographic order on (key, input position): Python's `sorted` is
stable, so it produces exactly the ascending ordering of these pairs. -/
def bmLex (a b : Int × ℕ × BasemapDesc) : Prop :=
  a.1 < b.1 ∨ (a.1 = b.1 ∧ a.2.1 ≤ b.2.1)

instance : DecidableRel bmLex := fun a b =>
  inferInstanceAs (Decidable (a.1 < b.1 ∨ (a.1 = b.1 ∧ a.2.1 ≤ b.2.1)))

instance : IsTotal (Int × ℕ × BasemapDesc) bmLex where
  total a b := by
    rcases lt_trichotomy a.1 b.1 with h | h | h
    · exact Or.inl (Or.inl h)
    · rcases Nat.le_total a.2.1 b.2.1 with h2 | h2
      · exact Or.inl (Or.inr ⟨h, h2⟩)
      · exact Or.inr (Or.inr ⟨h.symm, h2⟩)
    · exact Or.inr (Or.inl h)

instance : IsTrans (Int × ℕ × BasemapDesc) bmLex where
  trans a b c hab hbc := by
    rcases hab with h1 | ⟨h1, h1i⟩ <;> rcases hbc with h2 | ⟨h2, h2i⟩
    · exact Or.inl (lt_trans h1 h2)
    · exact Or.inl (h2 ▸ h1)
    · exact Or.inl (h1 ▸ h2)
    · exact Or.inr ⟨h1.trans h2, le_trans h1i h2i⟩

/-- Model of `sorted(layers, key=lambda x: x["uiOptions"].get("zIndex", 0))`. -/
def pySortedBasemaps (layers : List BasemapDesc) : Except String (List BasemapDesc) :=
  (keyedBasemaps layers).map fun keyed =>
    (List.insertionSort bmLex keyed).map fun q => q.2.2

/-- Does `pat` occur in `s` (Python `pat in s`)? -/
def strContains (s pat : String) : Bool := decide (1 < (s.splitOn pat).length)

/-- Host side of the basemap phase: whether
`QgsRasterLayer(uri, name, "wms").isValid()` holds. -/
structure RasterHost where
  rasterValid : String → String → Bool

/-- A raster layer as inserted into the group: its name, its resolved XYZ
provider uri, and the applied opacity. -/
structure BasemapLayer where
  name : String
  uri : String
  opacity : ℚ
deriving Repr, DecidableEq

/-- The body of the per-descriptor `try` block: resolve the tiled-service
uri (subdomain substitution, XYZ canonicalization), skip unsupported types
and invalid layers (`none`), otherwise produce the layer with its declared
opacity.  A missing `uiOptions` key inside the loop would raise `KeyError`,
which the per-item `except` swallows — hence also `none`. -/
def buildBasemapLayer (host : RasterHost) (d : BasemapDesc) : Option BasemapLayer :=
  match d.uiOptions with
  | none => none
  | some ui =>
    let opacity := ui.opacity.getD 1
    let url := d.url.replace "\x7bs\x7d" "a"
    if d.layerType == "tms" || (d.layerType == "arcgis" && strContains url "/tiles/") then
      let tileUrl :=
        if !url.endsWith "/tile/\x7bz\x7d/\x7by\x7d/\x7bx\x7d" &&
            !strContains url "\x7bz\x7d/\x7bx\x7d/\x7by\x7d" then
          (url.dropRightWhile fun c => c = '/') ++ "/tile/\x7bz\x7d/\x7by\x7d/\x7bx\x7d"
        else url
      let uri := "type=xyz&url=" ++ tileUrl ++ "&zmin=0&zmax=22"
      if host.rasterValid uri d.name then
        some { name := d.name, uri := uri, opacity := opacity }
      else none
    else none

/-- Model of `add_basemap_layers(main_group, layers, progress_callback)`, with the
fresh `main_group`'s children as the result (index 0 = top of the layer
stack; each valid layer is inserted with `main_group.insertLayer(0, ...)`).
If `sorted(...)` raises, the exception propagates before the loop starts
and no layer is ever added (`.error`). -/
def addBasemapLayers (host : RasterHost) (layers : List BasemapDesc) :
    Except String (List BasemapLayer) :=
  match pySortedBasemaps layers with
  | .error e => .error e
  | .ok sortedLayers =>
    .ok (sortedLayers.foldl
      (fun group d =>
        match buildBasemapLayer host d with
        | some lyr => lyr :: group
        | none => group)
      [])

theorem keyedBasemapsGo_of_all (layers : List BasemapDesc)
    (hall : ∀ d ∈ layers, d.uiOptions.isSome = true) :
    ∀ i, keyedBasemapsGo i layers = .ok (keyedPureGo i layers) := by
  induction layers with
  | nil => intro i; rfl
  | cons d ds ih =>
    intro i
    have hd : d.uiOptions.isSome = true := hall d (List.mem_cons_self d ds)
    rcases hui : d.uiOptions with _ | ui
    · rw [hui] at hd; simp at hd
    · have ihds := ih fun x hx => hall x (List.mem_cons_of_mem d hx)
      simp [keyedBasemapsGo, keyedPureGo, basemapSortKey, pureKey, hui, ihds (i + 1),
        Except.map]

theorem basemap_foldl_insert0 (host : RasterHost) (l : List BasemapDesc)
    (acc : List BasemapLayer) :
    l.foldl
      (fun group d =>
        match buildBasemapLayer host d with
        | some lyr => lyr :: group
        | none => group)
      acc = (l.filterMap (buildBasemapLayer host)).reverse ++ acc := by
  induction l generalizing acc with
  | nil => simp
  | cons d ds ih =>
    rcases hb : buildBasemapLayer host d with _ | lyr <;>
      simp [List.filterMap_cons, hb, ih]

theorem keyedPureGo_idx (ds : List BasemapDesc) :
    ∀ i, (keyedPureGo i ds).map (fun q => q.2.1) = List.range' i ds.length := by
  induction ds with
  | nil => intro i; rfl
  | cons d ds ih =>
    intro i
    simp [keyedPureGo, List.range'_succ, ih (i + 1)]

/-- Claim C3. Under the precondition that every descriptor carries `uiOptions`
(otherwise see C9): `add_basemap_layers` processes the descriptors in the
stable ascending-zIndex order and front-inserts each valid one, so the final
children list (top of stack first) is the reverse of the valid layers in
sorted order — equivalently, the bottom-to-top stacking order is ascending
zIndex order.  The sorted sequence is a permutation of the input decorated
with input positions, strictly ascending in (zIndex, input position) — i.e.
ascending zIndex with input-order tie-break — and a missing `zIndex` key
sorts as 0. -/
theorem basemap_layers_stack_ascending (host : RasterHost) (layers : List BasemapDesc)
    (hall : ∀ d ∈ layers, d.uiOptions.isSome = true) :
    (addBasemapLayers host layers =
      .ok ((((List.insertionSort bmLex (keyedPure layers)).map fun q => q.2.2).filterMap
          (buildBasemapLayer host)).reverse))
    ∧ List.Perm (List.insertionSort bmLex (keyedPure layers)) (keyedPure layers)
    ∧ (List.insertionSort bmLex (keyedPure layers)).Pairwise
        (fun a b => a.1 < b.1 ∨ (a.1 = b.1 ∧ a.2.1 < b.2.1))
    ∧ (∀ d ∈ layers, ∀ ui, d.uiOptions = some ui → ui.zIndex = none → pureKey d = 0) := by
  have hkeyed : keyedBasemaps layers = .ok (keyedPure layers) :=
    keyedBasemapsGo_of_all layers hall 0
  refine ⟨?_, List.perm_insertionSort bmLex _, ?_, ?_⟩
  · unfold addBasemapLayers pySortedBasemaps
    rw [hkeyed]
    simp only [Except.map]
    rw [basemap_foldl_insert0]
    simp
  · have hs : (List.insertionSort bmLex (keyedPure layers)).Pairwise bmLex :=
      List.sorted_insertionSort bmLex (keyedPure layers)
    have h1 : ((keyedPure layers).map fun q => q.2.1).Nodup := by
      rw [keyedPure, keyedPureGo_idx]
      exact List.nodup_range' 0 layers.length
    have h2 : ((List.insertionSort bmLex (keyedPure layers)).map fun q => q.2.1).Nodup :=
      (((List.perm_insertionSort bmLex (keyedPure layers)).map _).nodup_iff).mpr h1
    have h3 : (List.insertionSort bmLex (keyedPure layers)).Pairwise
        (fun a b => a.2.1 ≠ b.2.1) := List.pairwise_map.mp h2
    refine (hs.and h3).imp ?_
    rintro a b ⟨hlex, hne⟩
    rcases hlex with h | ⟨he, hle⟩
    · exact Or.inl h
    · exact Or.inr ⟨he, lt_of_le_of_ne hle hne⟩
  · intro d _ ui hui hz
    simp [pureKey, hui, hz]

/-- A permissive host for witnesses: every raster layer is valid. -/
def sampleRasterHost : RasterHost where
  rasterValid := fun _ _ => true

/-- Two concrete basemap descriptors (the second with no `zIndex`). -/
def sampleBasemaps : List BasemapDesc :=
  [{ name := "B2", url := "http://x/b2", layerType := "tms",
     uiOptions := some { zIndex := some 1, opacity := some (8/10) } },
   { name := "B1", url := "http://x/b1", layerType := "tms",
     uiOptions := some { zIndex := none, opacity := none } }]

/-- Witness for C3 at a concrete descriptor list. -/
theorem basemap_layers_stack_ascending_witness :
    addBasemapLayers sampleRasterHost sampleBasemaps =
      .ok ((((List.insertionSort bmLex (keyedPure sampleBasemaps)).map fun q => q.2.2).filterMap
          (buildBasemapLayer sampleRasterHost)).reverse) :=
  (basemap_layers_stack_ascending sampleRasterHost sampleBasemaps (by decide)).1

theorem keyedBasemapsGo_error (ds : List BasemapDesc)
    (hmiss : ∃ d ∈ ds, d.uiOptions = none) :
    ∀ i, ∃ e, keyedBasemapsGo i ds = .error e := by
  induction ds with
  | nil => rcases hmiss with ⟨d, hd, _⟩; cases hd
  | cons d ds ih =>
    intro i
    rcases hui : d.uiOptions with _ | ui
    · exact ⟨"KeyError: uiOptions", by simp [keyedBasemapsGo, basemapSortKey, hui]⟩
    · have hmiss2 : ∃ x ∈ ds, x.uiOptions = none := by
        rcases hmiss with ⟨x, hx, hxn⟩
        rcases List.mem_cons.mp hx with rfl | hx2
        · rw [hui] at hxn; cases hxn
        · exact ⟨x, hx2, hxn⟩
      rcases ih hmiss2 (i + 1) with ⟨e, he⟩
      exact ⟨e, by simp [keyedBasemapsGo, basemapSortKey, hui, he, Except.map]⟩

/-- Claim C9. The sort key `x["uiOptions"]` is evaluated by `sorted(...)`
before the per-item `try` block is ever entered: if any descriptor lacks
`uiOptions`, the whole call raises (for every host) and no layer at all is
added — the per-item failure isolation does not cover the sorting phase. -/
theorem missing_uiOptions_aborts_basemaps (host : RasterHost) (layers : List BasemapDesc)
    (hmiss : ∃ d ∈ layers, d.uiOptions = none) :
    ∃ e, pySortedBasemaps layers = .error e ∧ addBasemapLayers host layers = .error e := by
  rcases keyedBasemapsGo_error layers hmiss 0 with ⟨e, he⟩
  have hsorted : pySortedBasemaps layers = .error e := by
    unfold pySortedBasemaps keyedBasemaps
    rw [he]
    rfl
  exact ⟨e, hsorted, by unfold addBasemapLayers; rw [hsorted]⟩

/-- A descriptor list whose second element lacks `uiOptions`. -/
def sampleBadBasemaps : List BasemapDesc :=
  [{ name := "ok", url := "http://x/a", layerType := "tms",
     uiOptions := some { zIndex := some 0, opacity := none } },
   { name := "broken", url := "http://x/b", layerType := "tms", uiOptions := none }]

/-- Witness for C9 at a concrete descriptor list. -/
theorem missing_uiOptions_aborts_basemaps_witness :
    ∃ e, pySortedBasemaps sampleBadBasemaps = .error e ∧
      addBasemapLayers sampleRasterHost sampleBadBasemaps = .error e :=
  missing_uiOptions_aborts_basemaps sampleRasterHost sampleBadBasemaps (by decide)

/-! ## Feature materialization
(`add_features_layers` in `src/hazmapper_plugin/hazmapper_layers.py`) -/

/-- An asset dict: only these two keys are read, both via `.get`. -/
structure HMAsset where
  asset_type : Option String
  display_path : Option String
deriving Repr, DecidableEq

/-- A GeoJSON geometry: its `"type"` key (read by `_create_memory_layer`)
plus the rest of the object, opaque to the plugin (only passed through
`json.dumps` to GDAL/QGIS). -/
structure GeoJsonGeom where
  gtype : String
  body : Nat
deriving Repr, DecidableEq

/-- A raw feature: `feat["geometry"]` and `feat.get("assets")` (the key may
be absent or `None`, both modelled as `none`). -/
structure HMFeature where
  geometry : GeoJsonGeom
  assets : Option (List HMAsset)
deriving Repr, DecidableEq

/-- A `(feat, asset)` pair as stored in `feature_groups`. -/
abbrev FeatureItem := HMFeature × HMAsset

/-- Model of `feature_groups.setdefault(atype, []).append(item)`: insertion-ordered
dict upsert. -/
def upsertGroup : List (Option String × List FeatureItem) → Option String → FeatureItem →
    List (Option String × List FeatureItem)
  | [], k, x => [(k, [x])]
  | (k0, xs) :: rest, k, x =>
    if k0 = k then (k0, xs ++ [x]) :: rest
    else (k0, xs) :: upsertGroup rest k x

/-- The grouping loop of `add_features_layers`: skip features whose
`assets` list is missing/`None`/empty, classify the rest by
`assets[0].get("asset_type")`. -/
def buildFeatureGroups (feats : List HMFeature) : List (Option String × List FeatureItem) :=
  feats.foldl
    (fun groups f =>
      match f.assets.getD [] with
      | [] => groups
      | a :: _ => upsertGroup groups a.asset_type (f, a))
    []

/-- The item a feature contributes (none if it has no assets). -/
def toItem (f : HMFeature) : Option FeatureItem :=
  match f.assets.getD [] with
  | [] => none
  | a :: _ => some (f, a)

theorem upsertGroup_shape (P : FeatureItem → Prop)
    (gs : List (Option String × List FeatureItem)) (k : Option String) (x : FeatureItem)
    (hgs : ∀ g ∈ gs, (∀ p ∈ g.2, P p) ∧ (∀ p ∈ g.2, g.1 = p.2.asset_type))
    (hx : P x) (hk : k = x.2.asset_type) :
    ∀ g ∈ upsertGroup gs k x, (∀ p ∈ g.2, P p) ∧ (∀ p ∈ g.2, g.1 = p.2.asset_type) := by
  induction gs with
  | nil =>
    intro g hg
    simp only [upsertGroup, List.mem_singleton] at hg
    subst hg
    constructor
    · intro p hp
      simp only [List.mem_singleton] at hp
      subst hp; exact hx
    · intro p hp
      simp only [List.mem_singleton] at hp
      subst hp; exact hk
  | cons g0 rest ih =>
    intro g hg
    rcases g0 with ⟨k0, xs⟩
    by_cases hk0 : k0 = k
    · simp only [upsertGroup, if_pos hk0] at hg
      rcases List.mem_cons.mp hg with rfl | hg2
      · have h0 := hgs (k0, xs) (List.mem_cons_self _ _)
        constructor
        · intro p hp
          rcases List.mem_append.mp hp with hp1 | hp2
          · exact h0.1 p hp1
          · simp only [List.mem_singleton] at hp2; subst hp2; exact hx
        · intro p hp
          rcases List.mem_append.mp hp with hp1 | hp2
          · exact h0.2 p hp1
          · simp only [List.mem_singleton] at hp2
            subst hp2
            exact hk0.trans hk
      · exact hgs g (List.mem_cons_of_mem _ hg2)
    · simp only [upsertGroup, if_neg hk0] at hg
      rcases List.mem_cons.mp hg with rfl | hg2
      · exact hgs _ (List.mem_cons_self _ _)
      · exact ih (fun h hh => hgs h (List.mem_cons_of_mem _ hh)) g hg2

theorem buildFeatureGroups_shape (feats : List HMFeature) :
    ∀ g ∈ buildFeatureGroups feats,
      (∀ p ∈ g.2, ∃ rest, p.1.assets.getD [] = p.2 :: rest) ∧
      (∀ p ∈ g.2, g.1 = p.2.asset_type) := by
  suffices h : ∀ (fs : List HMFeature) (gs : List (Option String × List FeatureItem)),
      (∀ g ∈ gs, (∀ p ∈ g.2, ∃ rest, p.1.assets.getD [] = p.2 :: rest) ∧
        (∀ p ∈ g.2, g.1 = p.2.asset_type)) →
      ∀ g ∈ fs.foldl
          (fun groups f =>
            match f.assets.getD [] with
            | [] => groups
            | a :: _ => upsertGroup groups a.asset_type (f, a))
          gs,
        (∀ p ∈ g.2, ∃ rest, p.1.assets.getD [] = p.2 :: rest) ∧
        (∀ p ∈ g.2, g.1 = p.2.asset_type) by
    exact h feats [] (by intro g hg; cases hg)
  intro fs
  induction fs with
  | nil => intro gs hgs; simpa using hgs
  | cons f fs ih =>
    intro gs hgs
    simp only [List.foldl_cons]
    rcases hassets : f.assets.getD [] with _ | ⟨a, rest⟩
    · simpa [hassets] using ih gs hgs
    · simp only [hassets]
      exact ih _ (upsertGroup_shape _ _ _ _ hgs ⟨rest, hassets⟩ rfl)

theorem upsertGroup_join (gs : List (Option String × List FeatureItem))
    (k : Option String) (x : FeatureItem) :
    List.Perm (((upsertGroup gs k x).map Prod.snd).flatten)
      ((gs.map Prod.snd).flatten ++ [x]) := by
  induction gs with
  | nil => simp [upsertGroup]
  | cons g0 rest ih =>
    rcases g0 with ⟨k0, xs⟩
    by_cases hk0 : k0 = k
    · simp only [upsertGroup, if_pos hk0, List.map_cons, List.flatten_cons]
      calc (xs ++ [x]) ++ (rest.map Prod.snd).flatten
          = xs ++ ([x] ++ (rest.map Prod.snd).flatten) := by simp
        _ ~ xs ++ ((rest.map Prod.snd).flatten ++ [x]) :=
            List.Perm.append_left xs (List.perm_append_comm)
        _ = (xs ++ (rest.map Prod.snd).flatten) ++ [x] := by simp
    · simp only [upsertGroup, if_neg hk0, List.map_cons, List.flatten_cons]
      calc xs ++ ((upsertGroup rest k x).map Prod.snd).flatten
          ~ xs ++ ((rest.map Prod.snd).flatten ++ [x]) := List.Perm.append_left xs ih
        _ = (xs ++ (rest.map Prod.snd).flatten) ++ [x] := by simp

theorem buildFeatureGroups_join (feats : List HMFeature) :
    List.Perm (((buildFeatureGroups feats).map Prod.snd).flatten) (feats.filterMap toItem) := by
  suffices h : ∀ (fs : List HMFeature) (gs : List (Option String × List FeatureItem)),
      List.Perm
        (((fs.foldl
            (fun groups f =>
              match f.assets.getD [] with
              | [] => groups
              | a :: _ => upsertGroup groups a.asset_type (f, a))
            gs).map Prod.snd).flatten)
        ((gs.map Prod.snd).flatten ++ fs.filterMap toItem) by
    simpa using h feats []
  intro fs
  induction fs with
  | nil => intro gs; simp
  | cons f fs ih =>
    intro gs
    simp only [List.foldl_cons, List.filterMap_cons]
    rcases hassets : f.assets.getD [] with _ | ⟨a, rest⟩
    · simp [toItem, hassets, ih gs]
    · simp only [toItem, hassets]
      calc ((fs.foldl _ (upsertGroup gs a.asset_type (f, a))).map Prod.snd).flatten
          ~ (((upsertGroup gs a.asset_type (f, a)).map Prod.snd).flatten ++ fs.filterMap toItem) :=
            ih (upsertGroup gs a.asset_type (f, a))
        _ ~ (((gs.map Prod.snd).flatten ++ [(f, a)]) ++ fs.filterMap toItem) :=
            List.Perm.append_right _ (upsertGroup_join gs a.asset_type (f, a))
        _ = (gs.map Prod.snd).flatten ++ ((f, a) :: fs.filterMap toItem) := by simp

theorem upsertGroup_keys (gs : List (Option String × List FeatureItem))
    (k : Option String) (x : FeatureItem) :
    (upsertGroup gs k x).map Prod.fst =
      if k ∈ gs.map Prod.fst then gs.map Prod.fst else gs.map Prod.fst ++ [k] := by
  induction gs with
  | nil => simp [upsertGroup]
  | cons g0 rest ih =>
    rcases g0 with ⟨k0, xs⟩
    by_cases hk0 : k0 = k
    · subst hk0
      simp [upsertGroup]
    · simp only [upsertGroup, if_neg hk0, List.map_cons, ih, List.mem_cons]
      by_cases hmem : k ∈ rest.map Prod.fst
      · simp [hmem, hk0, Ne.symm hk0]
      · simp [hmem, hk0, Ne.symm hk0]

theorem buildFeatureGroups_keys_nodup (feats : List HMFeature) :
    ((buildFeatureGroups feats).map Prod.fst).Nodup := by
  suffices h : ∀ (fs : List HMFeature) (gs : List (Option String × List FeatureItem)),
      (gs.map Prod.fst).Nodup →
      ((fs.foldl
          (fun groups f =>
            match f.assets.getD [] with
            | [] => groups
            | a :: _ => upsertGroup groups a.asset_type (f, a))
          gs).map Prod.fst).Nodup by
    exact h feats [] List.nodup_nil
  intro fs
  induction fs with
  | nil => intro gs hgs; simpa using hgs
  | cons f fs ih =>
    intro gs hgs
    simp only [List.foldl_cons]
    rcases hassets : f.assets.getD [] with _ | ⟨a, rest⟩
    · exact ih gs hgs
    · refine ih _ ?_
      rw [upsertGroup_keys]
      by_cases hmem : a.asset_type ∈ gs.map Prod.fst
      · simpa [hmem] using hgs
      · simp only [hmem, if_neg]
        simpa [List.nodup_append, hmem] using hgs

/-- Claim C4. Grouping by asset type: (1) a feature with an empty or absent
asset list never occurs in any group (hence in no output layer, which are
built exclusively from group members); (2) every stored item pairs a
feature with its own first asset and sits in the group keyed by that first
asset's `asset_type` — other assets are never consulted; (3) collectively
the groups contain exactly the asset-bearing features, once each; (4) group
keys are pairwise distinct, so each classified feature is in exactly one
group. -/
theorem features_grouped_by_first_asset (feats : List HMFeature) :
    (∀ f : HMFeature, f.assets.getD [] = [] →
      ∀ g ∈ buildFeatureGroups feats, ∀ p ∈ g.2, p.1 ≠ f)
    ∧ (∀ g ∈ buildFeatureGroups feats, ∀ p ∈ g.2,
        ∃ rest, p.1.assets.getD [] = p.2 :: rest ∧ g.1 = p.2.asset_type)
    ∧ List.Perm (((buildFeatureGroups feats).map Prod.snd).flatten) (feats.filterMap toItem)
    ∧ ((buildFeatureGroups feats).map Prod.fst).Nodup := by
  have hshape := buildFeatureGroups_shape feats
  refine ⟨?_, ?_, buildFeatureGroups_join feats, buildFeatureGroups_keys_nodup feats⟩
  · intro f hf g hg p hp heq
    rcases (hshape g hg).1 p hp with ⟨rest, hrest⟩
    rw [heq, hf] at hrest
    cases hrest
  · intro g hg p hp
    rcases (hshape g hg).1 p hp with ⟨rest, hrest⟩
    exact ⟨rest, hrest, (hshape g hg).2 p hp⟩

/-- A feature with an empty asset list, a feature with no `assets` key, and
an image feature, for witnesses. -/
def sampleNoAssetFeature : HMFeature where
  geometry := { gtype := "Point", body := 0 }
  assets := some []

def sampleImageAsset : HMAsset where
  asset_type := some "image"
  display_path := some "a.jpg"

def sampleImageFeature : HMFeature where
  geometry := { gtype := "Point", body := 1 }
  assets := some [sampleImageAsset, { asset_type := some "video", display_path := none }]

def sampleFeatList : List HMFeature := [sampleNoAssetFeature, sampleImageFeature]

/-- Witness for C4: in the concrete grouping of `sampleFeatList`, the item
stored for the image feature (classified by its FIRST asset even though its
second asset has a different type) is not the asset-less feature. -/
theorem features_grouped_by_first_asset_witness :
    (sampleImageFeature, sampleImageAsset).1 ≠ sampleNoAssetFeature :=
  (features_grouped_by_first_asset sampleFeatList).1 sampleNoAssetFeature rfl
    (some "image", [(sampleImageFeature, sampleImageAsset)]) (by decide)
    (sampleImageFeature, sampleImageAsset) (by decide)

/-- Geometry class of a `QgsGeometry`
(`QgsWkbTypes.geometryType(g.wkbType())`). -/
inductive GeomClass where
  | pointG
  | lineG
  | polygonG
  | unknownG
deriving Repr, DecidableEq

/-- A native geometry object, as far as the code observes it: its geometry
class, whether its WKB type is a single (non-multi) type, and whether it is
empty. -/
structure QgsGeom where
  gclass : GeomClass
  single : Bool
  empty : Bool
deriving Repr, DecidableEq

/-- Model of `g.convertToMultiType()`: same geometry class, no longer single. -/
def convertToMultiType (g : QgsGeom) : QgsGeom := { g with single := false }

/-- Host side of the feature phase: whether a `"memory"`-provider
`QgsVectorLayer(uri, name, "memory")` is valid, and the composed geometry
conversion `QgsGeometry.fromWkt(json_to_wkt(json.dumps(geom)))`
(GDAL + QGIS; `.error` = an exception anywhere in that pipeline). -/
structure FeatHost where
  memLayerValid : String → String → Bool
  geoJsonToQgs : GeoJsonGeom → Except String QgsGeom

/-- Model of `str.title()` (ASCII approximation): uppercase an alphabetic character
that follows a non-alphabetic one, lowercase the rest. -/
def pyTitleGo : Bool → List Char → List Char
  | _, [] => []
  | prevAlpha, c :: cs =>
    (if c.isAlpha then (if prevAlpha then c.toLower else c.toUpper) else c) ::
      pyTitleGo c.isAlpha cs

def pyTitle (s : String) : String := ⟨pyTitleGo false s.data⟩

/-- Model of `get_display_name` from `src/hazmapper_plugin/utils/display.py`. -/
def getDisplayName (t : String) : String :=
  if t = "point_cloud" then "Point Clouds"
  else if t = "image" then "Images"
  else if t = "streetview" then "StreetView"
  else if t = "video" then "Videos"
  else if t = "questionnaire" then "Questionnaires"
  else if t = "no_asset_vector" then "Vector Features"
  else pyTitle (t.replace "_" " ")

/-- Model of `get_display_name(asset_type)` when the classification key may be
`None`: the default argument `asset_type.replace("_", " ").title()` is
evaluated eagerly, so a `None` key raises `AttributeError` even for keys
present in the dict. -/
def getDisplayNameOpt : Option String → Except String String
  | some t => .ok (getDisplayName t)
  | none => .error "AttributeError: NoneType object has no attribute replace"

/-- A feature of the shared per-type memory layer: its geometry and its two
attributes `(asset_type, display_path)`. -/
structure SharedFeature where
  geom : QgsGeom
  attrs : String × String
deriving Repr, DecidableEq

/-- Loop body of the shared-layer batch loop: convert the feature's
geometry (an exception is caught: skip), drop empty geometries, normalize a
single point geometry to multi-type. -/
def imageItemToFeature (host : FeatHost) (item : FeatureItem) : Option SharedFeature :=
  match host.geoJsonToQgs item.1.geometry with
  | .error _ => none
  | .ok g =>
    if g.empty then none
    else
      let g2 := if g.gclass == .pointG && g.single then convertToMultiType g else g
      some { geom := g2,
             attrs := (item.2.asset_type.getD "", item.2.display_path.getD "") }

/-- Model of `range(0, total, BATCH)` slicing with batch size `bpred + 1`. -/
def chunksOfGo (bpred : ℕ) : List α → List (List α)
  | [] => []
  | x :: xs => (x :: xs).take (bpred + 1) :: chunksOfGo bpred ((x :: xs).drop (bpred + 1))
termination_by l => l.length
decreasing_by
  simp only [List.length_drop, List.length_cons]
  omega

/-- Batch slicing with batch size `b` (meaningful for `1 ≤ b`). -/
def chunksOf (b : ℕ) (l : List α) : List (List α) := chunksOfGo (b - 1) l

theorem chunksOfGo_flatten (bpred : ℕ) (l : List α) :
    (chunksOfGo bpred l).flatten = l := by
  have main : ∀ (n : ℕ) (l : List α), l.length ≤ n → (chunksOfGo bpred l).flatten = l := by
    intro n
    induction n with
    | zero =>
      intro l hl
      cases l with
      | nil => simp [chunksOfGo]
      | cons x xs => simp at hl
    | succ n ih =>
      intro l hl
      cases l with
      | nil => simp [chunksOfGo]
      | cons x xs =>
        simp only [List.length_cons] at hl
        rw [chunksOfGo, List.flatten_cons,
          ih ((x :: xs).drop (bpred + 1))
            (by simp only [List.length_drop, List.length_cons]; omega)]
        exact List.take_append_drop (bpred + 1) (x :: xs)
  exact main l.length l le_rfl

theorem chunksOf_filterMap_flatten (b : ℕ) (f : α → Option β) (l : List α) :
    ((chunksOf b l).map fun ch => ch.filterMap f).flatten = l.filterMap f := by
  rw [← List.filterMap_flatten, chunksOf, chunksOfGo_flatten]

/-- The shared memory layer built for a point-style asset type. -/
structure SharedLayer where
  name : String
  features : List SharedFeature
deriving Repr, DecidableEq

/-- A per-feature memory layer (point clouds and all other types): its
name, its provider uri `f"{geom_type}?crs=EPSG:4326"`, the converted
geometry and the two attributes. -/
structure PCLayer where
  name : String
  uri : String
  geom : QgsGeom
  attrs : String × String
deriving Repr, DecidableEq

/-- Model of `_create_memory_layer(feature, name)`.  The geometry conversion is NOT
wrapped in any `try` in this branch, so its exception propagates
(`.error`); `feature.get("assets", [{}])[0]` raises `IndexError` on a
present-but-empty asset list (the asset-dict falsiness fallback `or \x7b\x7d`
changes nothing observable here and is not modelled separately).  Layer
validity is not checked in this branch. -/
def createMemoryLayer (host : FeatHost) (f : HMFeature) (name : String) :
    Except String PCLayer :=
  let uri := f.geometry.gtype ++ "?crs=EPSG:4326"
  match host.geoJsonToQgs f.geometry with
  | .error e => .error e
  | .ok g =>
    match f.assets with
    | none => .ok { name := name, uri := uri, geom := g, attrs := ("", "") }
    | some [] => .error "IndexError: list index out of range"
    | some (a :: _) =>
      .ok { name := name, uri := uri, geom := g,
            attrs := (a.asset_type.getD "", a.display_path.getD "") }

/-- The per-feature branch of `add_features_layers`: walk the items,
accumulate built layers in `batch_layers` (`pending`), and on every flush
(`len(batch_layers) >= BATCH or i == total`) register the batch and insert
each of its layers at position 0 of the subgroup (`children`, top first). -/
def pcProcess (host : FeatHost) (b : ℕ) (atype : String) :
    List FeatureItem → List PCLayer → List PCLayer → Except String (List PCLayer)
  | [], children, _pending => .ok children
  | (f, a) :: rest, children, pending =>
    match createMemoryLayer host f (a.display_path.getD ("Unnamed " ++ atype)) with
    | .error e => .error e
    | .ok vl =>
      let pending2 := pending ++ [vl]
      if b ≤ pending2.length || rest.isEmpty then
        pcProcess host b atype rest (pending2.foldl (fun ch l => l :: ch) children) []
      else
        pcProcess host b atype rest children pending2

/-- A child of the Hazmapper main group produced by `add_features_layers`:
either a shared per-type layer or a subgroup holding per-feature layers. -/
inductive FeatNode where
  | sharedNode (l : SharedLayer)
  | subgroupNode (name : String) (children : List PCLayer)
deriving Repr, DecidableEq

/-- The per-group loop of `add_features_layers`.  `acc` is the main group's
children list (index 0 = top; both `insertLayer(0, ...)` and
`insertChildNode(0, subgroup)` prepend).  `bImg` is the shared-layer batch
size (source: 200), `bPC` the registration batch size (source: 50). -/
def addFeaturesLayersGo (host : FeatHost) (bImg bPC : ℕ) :
    List (Option String × List FeatureItem) → List FeatNode → Except String (List FeatNode)
  | [], acc => .ok acc
  | (atype, items) :: rest, acc =>
    if items.isEmpty then addFeaturesLayersGo host bImg bPC rest acc
    else if atype == some "video" || atype == some "image" || atype == some "streetview" then
      -- shared memory layer branch; `atype` is a plain string here
      let layerName := getDisplayName (atype.getD "")
      if host.memLayerValid "MultiPoint?crs=EPSG:4326" layerName then
        let feats := ((chunksOf bImg items).map fun ch =>
            ch.filterMap (imageItemToFeature host)).flatten
        addFeaturesLayersGo host bImg bPC rest
          (.sharedNode { name := layerName, features := feats } :: acc)
      else
        -- invalid memory layer: log + continue with the next asset type
        addFeaturesLayersGo host bImg bPC rest acc
    else
      match getDisplayNameOpt atype with
      | .error e => .error e
      | .ok subgroupName =>
        match pcProcess host bPC (atype.getD "None") items [] [] with
        | .error e => .error e
        | .ok children =>
          addFeaturesLayersGo host bImg bPC rest (.subgroupNode subgroupName children :: acc)

/-- Model of `add_features_layers(main_group, features, ...)`: group the raw
features (`features.get("features", [])`), then materialize each group.
The result is the main group's children list contributed by this call
(top of stack first). -/
def addFeaturesLayers (host : FeatHost) (bImg bPC : ℕ)
    (featuresDict : Option (List HMFeature)) : Except String (List FeatNode) :=
  addFeaturesLayersGo host bImg bPC (buildFeatureGroups (featuresDict.getD [])) []

theorem foldl_cons_eq_reverse_append {β : Type} (pending children : List β) :
    pending.foldl (fun ch l => l :: ch) children = pending.reverse ++ children := by
  induction pending generalizing children with
  | nil => simp
  | cons x xs ih =>
    simp only [List.foldl_cons, List.reverse_cons, List.append_assoc, List.cons_append,
      List.nil_append]
    rw [ih]

/-- Evaluate an `Except`-returning function over a list, stopping at the
first error (the sequencing of `_create_memory_layer` calls in the loop). -/
def exceptMapList (f : α → Except String β) : List α → Except String (List β)
  | [] => .ok []
  | a :: l =>
    match f a with
    | .error e => .error e
    | .ok b => (exceptMapList f l).map fun bl => b :: bl

theorem exceptMapList_ok_of_forall (f : α → Except String β) (l : List α)
    (h : ∀ a ∈ l, ∃ b, f a = .ok b) :
    ∃ bl, exceptMapList f l = .ok bl ∧ bl.length = l.length := by
  induction l with
  | nil => exact ⟨[], rfl, rfl⟩
  | cons a l ih =>
    rcases h a (List.mem_cons_self a l) with ⟨b, hb⟩
    rcases ih (fun x hx => h x (List.mem_cons_of_mem a hx)) with ⟨bl, hbl, hlen⟩
    exact ⟨b :: bl, by simp [exceptMapList, hb, hbl, Except.map], by simp [hlen]⟩

theorem filterMap_length_of_forall_isSome (f : α → Option β) (l : List α)
    (h : ∀ a ∈ l, (f a).isSome = true) :
    (l.filterMap f).length = l.length := by
  induction l with
  | nil => rfl
  | cons a l ih =>
    rcases hfa : f a with _ | b
    · have := h a (List.mem_cons_self a l)
      rw [hfa] at this
      simp at this
    · simp [List.filterMap_cons, hfa,
        ih fun x hx => h x (List.mem_cons_of_mem a hx)]

/-- Grouping a collection whose classified features all share asset type
`k` yields a single group (or none, if nothing is classified). -/
theorem buildFeatureGroups_homog (k : Option String) (feats : List HMFeature)
    (hty : ∀ f ∈ feats, ∀ a rest, f.assets.getD [] = a :: rest → a.asset_type = k) :
    buildFeatureGroups feats =
      if feats.filterMap toItem = [] then [] else [(k, feats.filterMap toItem)] := by
  have aux : ∀ (fs : List HMFeature) (xs : List FeatureItem),
      (∀ f ∈ fs, ∀ a rest, f.assets.getD [] = a :: rest → a.asset_type = k) →
      fs.foldl
        (fun groups f =>
          match f.assets.getD [] with
          | [] => groups
          | a :: _ => upsertGroup groups a.asset_type (f, a))
        [(k, xs)] = [(k, xs ++ fs.filterMap toItem)] := by
    intro fs
    induction fs with
    | nil => intro xs _; simp
    | cons f fs ih =>
      intro xs hty2
      simp only [List.foldl_cons, List.filterMap_cons]
      rcases hassets : f.assets.getD [] with _ | ⟨a, rest⟩
      · simpa [toItem, hassets] using
          ih xs fun x hx => hty2 x (List.mem_cons_of_mem f hx)
      · have hk : a.asset_type = k := hty2 f (List.mem_cons_self f fs) a rest hassets
        have hupsert : upsertGroup [(k, xs)] a.asset_type (f, a) = [(k, xs ++ [(f, a)])] := by
          simp [upsertGroup, hk]
        simp only [toItem, hassets, hupsert]
        rw [ih (xs ++ [(f, a)]) fun x hx => hty2 x (List.mem_cons_of_mem f hx)]
        simp
  unfold buildFeatureGroups
  induction feats with
  | nil => simp
  | cons f fs ih =>
    simp only [List.foldl_cons, List.filterMap_cons]
    rcases hassets : f.assets.getD [] with _ | ⟨a, rest⟩
    · simpa [toItem, hassets] using ih fun x hx => hty x (List.mem_cons_of_mem f hx)
    · have hk : a.asset_type = k := hty f (List.mem_cons_self f fs) a rest hassets
      have hupsert : upsertGroup [] a.asset_type (f, a) = [(k, [(f, a)])] := by
        simp [upsertGroup, hk]
      simp only [toItem, hassets, hupsert]
      rw [aux fs [(f, a)] fun x hx => hty x (List.mem_cons_of_mem f hx)]
      simp

/-- Lemma: `pcProcess` under successful layer creation: the subgroup's children
end up being exactly the built layers in reverse processing order, for any
batch size. -/
theorem pcProcess_eq (host : FeatHost) (b : ℕ) (atype : String) :
    ∀ (items : List FeatureItem) (bl children pending : List PCLayer),
      exceptMapList
        (fun it => createMemoryLayer host it.1
          (it.2.display_path.getD ("Unnamed " ++ atype))) items = .ok bl →
      pcProcess host b atype items children pending =
        .ok (if items.isEmpty then children
             else bl.reverse ++ pending.reverse ++ children) := by
  intro items
  induction items with
  | nil =>
    intro bl children pending hmap
    simp [pcProcess]
  | cons it rest ih =>
    intro bl children pending hmap
    rcases it with ⟨f, a⟩
    rcases hc : createMemoryLayer host f (a.display_path.getD ("Unnamed " ++ atype)) with e | vl
    · rw [exceptMapList, hc] at hmap
      cases hmap
    · rw [exceptMapList] at hmap
      simp only [hc] at hmap
      rcases hrest : exceptMapList
          (fun it => createMemoryLayer host it.1
            (it.2.display_path.getD ("Unnamed " ++ atype))) rest with e2 | bl2
      · rw [hrest] at hmap
        cases hmap
      · rw [hrest] at hmap
        simp only [Except.map] at hmap
        have hbl : bl = vl :: bl2 := by
          cases hmap
          rfl
        subst hbl
        rw [pcProcess, hc]
        simp only
        by_cases hflush : (b ≤ (pending ++ [vl]).length || rest.isEmpty) = true
        · rw [if_pos hflush]
          rw [ih bl2 _ [] hrest, foldl_cons_eq_reverse_append]
          rcases rest with _ | ⟨r, rs⟩
          · have hbl2 : bl2 = [] := by
              rw [exceptMapList] at hrest
              cases hrest
              rfl
            subst hbl2
            simp
          · simp
        · rw [if_neg (by simpa using hflush)]
          have hrest_ne : rest.isEmpty = false := by
            rcases hre : rest.isEmpty with _ | _
            · rfl
            · rw [hre] at hflush
              simp at hflush
          rw [ih bl2 children (pending ++ [vl]) hrest]
          rcases rest with _ | ⟨r, rs⟩
          · simp at hrest_ne
          · simp

/-- Claim C5. A collection whose classified features are all images produces
exactly one shared layer, named `"Images"`, holding the converted
geometries of all classified features in order — for every batch size
(the batch parameter does not occur in the result).  A geometry that fails
to convert (or is empty) is skipped without aborting the layer; every
point geometry in the layer has been normalized to a multi-type geometry;
and when every geometry converts to a non-empty geometry, the layer holds
exactly N features, N being the number of classified features. -/
theorem image_features_one_shared_layer (host : FeatHost) (bImg bPC : ℕ)
    (feats : List HMFeature) (_hb : 1 ≤ bImg)
    (hval : host.memLayerValid "MultiPoint?crs=EPSG:4326" "Images" = true)
    (hty : ∀ f ∈ feats, ∀ a rest, f.assets.getD [] = a :: rest →
      a.asset_type = some "image")
    (hne : ∃ f ∈ feats, f.assets.getD [] ≠ []) :
    buildFeatureGroups feats = [(some "image", feats.filterMap toItem)]
    ∧ addFeaturesLayers host bImg bPC (some feats) =
        .ok [.sharedNode
          { name := "Images",
            features := (feats.filterMap toItem).filterMap (imageItemToFeature host) }]
    ∧ (∀ sf ∈ (feats.filterMap toItem).filterMap (imageItemToFeature host),
        sf.geom.gclass = .pointG → sf.geom.single = false)
    ∧ ((∀ it ∈ feats.filterMap toItem,
          ∃ g, host.geoJsonToQgs it.1.geometry = .ok g ∧ g.empty = false) →
        ((feats.filterMap toItem).filterMap (imageItemToFeature host)).length =
          (feats.filterMap toItem).length) := by
  have hitems_ne : feats.filterMap toItem ≠ [] := by
    rcases hne with ⟨f, hf, hfa⟩
    rcases hassets : f.assets.getD [] with _ | ⟨a, rest⟩
    · exact absurd hassets hfa
    · intro hempty
      have hmem : (f, a) ∈ feats.filterMap toItem :=
        List.mem_filterMap.mpr ⟨f, hf, by simp [toItem, hassets]⟩
      rw [hempty] at hmem
      cases hmem
  have hgroups : buildFeatureGroups feats = [(some "image", feats.filterMap toItem)] := by
    rw [buildFeatureGroups_homog (some "image") feats hty, if_neg hitems_ne]
  refine ⟨hgroups, ?_, ?_, ?_⟩
  · unfold addFeaturesLayers
    simp only [Option.getD_some, hgroups]
    rw [addFeaturesLayersGo]
    simp only [List.isEmpty_eq_true, hitems_ne, if_neg, if_false]
    have htag : ((some "image" : Option String) == some "video"
        || (some "image" : Option String) == some "image"
        || (some "image" : Option String) == some "streetview") = true := by decide
    rw [if_pos (by simp [htag])]
    have hname : getDisplayName ((some "image" : Option String).getD "") = "Images" := by decide
    rw [hname, if_pos hval, chunksOf_filterMap_flatten]
    rfl
  · intro sf hsf _hpoint
    rcases List.mem_filterMap.mp hsf with ⟨it, _hit, hconv⟩
    unfold imageItemToFeature at hconv
    rcases hg : host.geoJsonToQgs it.1.geometry with e | g
    · simp only [hg] at hconv
      cases hconv
    · simp only [hg] at hconv
      by_cases hempty : g.empty = true
      · simp only [hempty, if_true, reduceIte] at hconv
        cases hconv
      · simp only [hempty, if_false, Bool.false_eq_true, reduceIte] at hconv
        by_cases hmulti : (g.gclass == GeomClass.pointG && g.single) = true
        · simp only [hmulti, if_true, reduceIte] at hconv
          cases hconv
          rfl
        · simp only [hmulti, Bool.false_eq_true, if_false, reduceIte] at hconv
          cases hconv
          simp only [Bool.and_eq_true, beq_iff_eq, not_and] at hmulti
          rcases hsingle : g.single with _ | _
          · rfl
          · exact absurd hsingle (by simpa using hmulti _hpoint)
  · intro hconv
    refine filterMap_length_of_forall_isSome _ _ fun it hit => ?_
    rcases hconv it hit with ⟨g, hg, hgne⟩
    simp [imageItemToFeature, hg, hgne]

/-- A host for witnesses: valid memory layers, every geometry converting to
a non-empty single point. -/
def sampleFeatHost : FeatHost where
  memLayerValid := fun _ _ => true
  geoJsonToQgs := fun _ => .ok { gclass := .pointG, single := true, empty := false }

/-- Witness for C5 at a concrete one-image collection: a single `"Images"`
layer whose one feature is the normalized (multi-type) point. -/
theorem image_features_one_shared_layer_witness :
    addFeaturesLayers sampleFeatHost 200 50 (some [sampleImageFeature]) =
      .ok [.sharedNode
        { name := "Images",
          features := ([sampleImageFeature].filterMap toItem).filterMap
            (imageItemToFeature sampleFeatHost) }] :=
  (image_features_one_shared_layer sampleFeatHost 200 50 [sampleImageFeature]
    (by norm_num) rfl
    (by
      intro f hf a rest h
      simp only [List.mem_singleton] at hf
      subst hf
      simp only [sampleImageFeature, Option.getD_some] at h
      rw [List.cons_eq_cons] at h
      rw [← h.1]
      rfl)
    ⟨sampleImageFeature, List.mem_singleton.mpr rfl, by decide⟩).2.1

/-- Claim C6. A collection whose classified features are all point clouds
produces (for any registration batch size, which does not occur in the
result) exactly one subgroup, named `"Point Clouds"`, holding one layer
per classified feature, and the subgroup's children are in the REVERSE of
processing order (each batch flush front-inserts).  Hypotheses: at least
one classified feature, and every classified feature's geometry converts
(an exception here is uncaught, unlike the shared-layer branch). -/
theorem point_cloud_features_per_feature_layers (host : FeatHost) (bImg bPC : ℕ)
    (feats : List HMFeature) (_hb : 1 ≤ bPC)
    (hty : ∀ f ∈ feats, ∀ a rest, f.assets.getD [] = a :: rest →
      a.asset_type = some "point_cloud")
    (hne : ∃ f ∈ feats, f.assets.getD [] ≠ [])
    (hconv : ∀ f ∈ feats, f.assets.getD [] ≠ [] →
      ∃ g, host.geoJsonToQgs f.geometry = .ok g) :
    ∃ children : List PCLayer,
      buildFeatureGroups feats = [(some "point_cloud", feats.filterMap toItem)]
      ∧ addFeaturesLayers host bImg bPC (some feats) =
          .ok [.subgroupNode "Point Clouds" children]
      ∧ exceptMapList
          (fun it => createMemoryLayer host it.1
            (it.2.display_path.getD ("Unnamed " ++ "point_cloud")))
          (feats.filterMap toItem) = .ok children.reverse
      ∧ children.length = (feats.filterMap toItem).length := by
  have hitems_ne : feats.filterMap toItem ≠ [] := by
    rcases hne with ⟨f, hf, hfa⟩
    rcases hassets : f.assets.getD [] with _ | ⟨a, rest⟩
    · exact absurd hassets hfa
    · intro hempty
      have hmem : (f, a) ∈ feats.filterMap toItem :=
        List.mem_filterMap.mpr ⟨f, hf, by simp [toItem, hassets]⟩
      rw [hempty] at hmem
      cases hmem
  have hgroups : buildFeatureGroups feats =
      [(some "point_cloud", feats.filterMap toItem)] := by
    rw [buildFeatureGroups_homog (some "point_cloud") feats hty, if_neg hitems_ne]
  have hok : ∀ it ∈ feats.filterMap toItem,
      ∃ l, createMemoryLayer host it.1
        (it.2.display_path.getD ("Unnamed " ++ "point_cloud")) = .ok l := by
    intro it hit
    rcases List.mem_filterMap.mp hit with ⟨f, hf, hto⟩
    rcases hassets : f.assets.getD [] with _ | ⟨a, rest⟩
    · rw [toItem, hassets] at hto
      cases hto
    · rw [toItem, hassets] at hto
      cases hto
      rcases hconv f hf (by rw [hassets]; intro h; cases h) with ⟨g, hg⟩
      have hsome : f.assets = some (a :: rest) := by
        rcases hA : f.assets with _ | l2
        · rw [hA] at hassets
          cases hassets
        · rw [hA] at hassets
          simp only [Option.getD_some] at hassets
          rw [hassets]
      refine ⟨{ name := a.display_path.getD ("Unnamed " ++ "point_cloud"),
                uri := f.geometry.gtype ++ "?crs=EPSG:4326", geom := g,
                attrs := (a.asset_type.getD "", a.display_path.getD "") }, ?_⟩
      unfold createMemoryLayer
      rw [hg, hsome]
  rcases exceptMapList_ok_of_forall _ _ hok with ⟨bl, hbl, hlen⟩
  refine ⟨bl.reverse, hgroups, ?_, ?_, ?_⟩
  · unfold addFeaturesLayers
    simp only [Option.getD_some, hgroups]
    rw [addFeaturesLayersGo]
    simp only [List.isEmpty_eq_true, hitems_ne, if_neg, if_false]
    have htag : ((some "point_cloud" : Option String) == some "video"
        || (some "point_cloud" : Option String) == some "image"
        || (some "point_cloud" : Option String) == some "streetview") = false := by decide
    rw [if_neg (by simp [htag])]
    have hdisplay : getDisplayNameOpt (some "point_cloud") = .ok "Point Clouds" := by
      simp [getDisplayNameOpt, getDisplayName]
    have hproc := pcProcess_eq host bPC ((some "point_cloud" : Option String).getD "None")
      (feats.filterMap toItem) bl [] [] hbl
    rw [hdisplay]
    simp only [Option.getD_some]
    simp only [Option.getD_some] at hproc
    rw [hproc]
    simp [addFeaturesLayersGo, hitems_ne]
  · rw [List.reverse_reverse]
    exact hbl
  · simp [hlen]

/-- A concrete point-cloud feature for the C6 witness. -/
def samplePCFeature : HMFeature where
  geometry := { gtype := "Point", body := 2 }
  assets := some [{ asset_type := some "point_cloud", display_path := some "cloud.las" }]

/-- Witness for C6 at a concrete one-point-cloud collection. -/
theorem point_cloud_features_per_feature_layers_witness :
    ∃ children : List PCLayer,
      buildFeatureGroups [samplePCFeature] =
        [(some "point_cloud", [samplePCFeature].filterMap toItem)]
      ∧ addFeaturesLayers sampleFeatHost 200 50 (some [samplePCFeature]) =
          .ok [.subgroupNode "Point Clouds" children]
      ∧ exceptMapList
          (fun it => createMemoryLayer sampleFeatHost it.1
            (it.2.display_path.getD ("Unnamed " ++ "point_cloud")))
          ([samplePCFeature].filterMap toItem) = .ok children.reverse
      ∧ children.length = ([samplePCFeature].filterMap toItem).length :=
  point_cloud_features_per_feature_layers sampleFeatHost 200 50 [samplePCFeature]
    (by norm_num)
    (by
      intro f hf a rest h
      simp only [List.mem_singleton] at hf
      subst hf
      simp only [samplePCFeature, Option.getD_some] at h
      rw [List.cons_eq_cons] at h
      rw [← h.1])
    ⟨samplePCFeature, List.mem_singleton.mpr rfl, by decide⟩
    (fun _ _ _ => ⟨_, rfl⟩)

/-! ## Extent aggregation (`zoom_to_group` in `src/Hazmapper/utils/qgis.py`) -/

/-- A coordinate reference system, as observed: its identity (for the
`lyr_crs != canvas_crs` comparison) and `isValid()`. -/
structure QCrs where
  authid : String
  valid : Bool
deriving Repr, DecidableEq

/-- A `QgsRectangle`. -/
structure QRect where
  xmin : ℚ
  ymin : ℚ
  xmax : ℚ
  ymax : ℚ
deriving Repr, DecidableEq

/-- Model of `QgsRectangle.isEmpty()`: no valid area. -/
def rectIsEmpty (r : QRect) : Bool :=
  decide (r.xmax < r.xmin) || decide (r.ymax < r.ymin)

/-- Model of `running_extent.combineExtentWith(lyr_extent)`: the bounding-box union. -/
def combineExtentWith (r s : QRect) : QRect :=
  { xmin := min r.xmin s.xmin, ymin := min r.ymin s.ymin,
    xmax := max r.xmax s.xmax, ymax := max r.ymax s.ymax }

/-- Model of `layer.type()`. -/
inductive MLayerType where
  | vectorL
  | rasterL
  | otherL
deriving Repr, DecidableEq

/-- A map layer as observed by `zoom_to_group`. -/
structure ZMapLayer where
  valid : Bool
  ltype : MLayerType
  extent : Option QRect
  hasCrsAttr : Bool
  crs : QCrs
deriving Repr, DecidableEq

/-- A layer-tree node: a group with children, or a layer node
(`child.layer()` may return `None`). -/
inductive ZNode where
  | zgroup (children : List ZNode)
  | zlayer (l : Option ZMapLayer)

/-- Host side of `zoom_to_group`: canvas presence, the canvas destination
CRS, and `QgsCoordinateTransform(...).transformBoundingBox` (`.error` = the
exception caught by the per-layer `except`). -/
structure ZoomHost where
  canvasPresent : Bool
  canvasCrs : QCrs
  transformBB : QCrs → QCrs → QRect → Except String QRect

/-- Model of `layer.crs() if hasattr(layer, "crs") else QgsCoordinateReferenceSystem("EPSG:4326")`. -/
def zoomLayerCrs (ml : ZMapLayer) : QCrs :=
  if ml.hasCrsAttr then ml.crs else { authid := "EPSG:4326", valid := true }

/-- The per-layer-child body of `accumulate_extent`: what (if anything)
this layer contributes to the running extent.  Skips a missing layer, an
invalid layer, a non-vector layer, a missing/empty extent, and a layer
whose extent transform raises; transforms when the (valid) layer CRS
differs from the canvas CRS. -/
def zoomLayerContribution (host : ZoomHost) : Option ZMapLayer → Option QRect
  | none => none
  | some ml =>
    if !ml.valid then none
    else if ml.ltype ≠ MLayerType.vectorL then none
    else
      match ml.extent with
      | none => none
      | some ext =>
        if rectIsEmpty ext then none
        else
          let lyrCrs := zoomLayerCrs ml
          if lyrCrs.valid = true ∧ lyrCrs ≠ host.canvasCrs then
            match host.transformBB lyrCrs host.canvasCrs ext with
            | .ok ext2 => some ext2
            | .error _ => none
          else some ext

mutual

/-- Model of `accumulate_extent(node, running_extent)`: the recursion over the tree.
A group node recurses into its children in order; a layer node folds its
contribution (if any) into the running extent. -/
def accNode (host : ZoomHost) : ZNode → Option QRect → Option QRect
  | .zgroup ch, acc => accList host ch acc
  | .zlayer ol, acc =>
    match zoomLayerContribution host ol with
    | none => acc
    | some r =>
      match acc with
      | none => some r
      | some a => some (combineExtentWith a r)

def accList (host : ZoomHost) : List ZNode → Option QRect → Option QRect
  | [], acc => acc
  | c :: cs, acc => accList host cs (accNode host c acc)

end

/-- Model of `zoom_to_group(group)`: computes the aggregate extent and reports
whether the canvas view was changed (`canvas.setExtent` + `refresh` run
only for a non-`None`, non-empty aggregate). -/
def zoomToGroup (host : ZoomHost) (group : ZNode) : Option QRect × Bool :=
  if !host.canvasPresent then (none, false)
  else
    match accNode host group none with
    | some ext => if !rectIsEmpty ext then (some ext, true) else (some ext, false)
    | none => (none, false)

mutual

/-- All layer slots among the descendants of a node, in visit order. -/
def zoomLayersNode : ZNode → List (Option ZMapLayer)
  | .zgroup ch => zoomLayersList ch
  | .zlayer ol => [ol]

def zoomLayersList : List ZNode → List (Option ZMapLayer)
  | [] => []
  | c :: cs => zoomLayersNode c ++ zoomLayersList cs

end

/-- Fold bounding-box unions over a list of contributions. -/
def foldCombine (acc : Option QRect) (rs : List QRect) : Option QRect :=
  rs.foldl
    (fun a r =>
      match a with
      | none => some r
      | some x => some (combineExtentWith x r))
    acc

theorem foldCombine_append (acc : Option QRect) (rs1 rs2 : List QRect) :
    foldCombine acc (rs1 ++ rs2) = foldCombine (foldCombine acc rs1) rs2 := by
  unfold foldCombine
  exact List.foldl_append _ _ _ _

mutual

theorem accNode_eq_foldCombine (host : ZoomHost) :
    ∀ (n : ZNode) (acc : Option QRect),
      accNode host n acc =
        foldCombine acc ((zoomLayersNode n).filterMap (zoomLayerContribution host))
  | .zgroup ch, acc => by
    rw [accNode, zoomLayersNode]
    exact accList_eq_foldCombine host ch acc
  | .zlayer ol, acc => by
    rw [accNode, zoomLayersNode]
    rcases h : zoomLayerContribution host ol with _ | r
    · simp [List.filterMap, h, foldCombine]
    · rcases acc with _ | a <;> simp [List.filterMap, h, foldCombine]

theorem accList_eq_foldCombine (host : ZoomHost) :
    ∀ (l : List ZNode) (acc : Option QRect),
      accList host l acc =
        foldCombine acc ((zoomLayersList l).filterMap (zoomLayerContribution host))
  | [], acc => by
    rw [accList, zoomLayersList]
    rfl
  | c :: cs, acc => by
    rw [accList, zoomLayersList, List.filterMap_append, foldCombine_append,
      ← accNode_eq_foldCombine host c acc]
    exact accList_eq_foldCombine host cs (accNode host c acc)

end

/-- Claim C7. Extent aggregation: (1) the recursion visits every descendant
layer slot in order and equals the fold of bounding-box unions over the
per-layer contributions; (2) a non-vector (raster/basemap) layer never
contributes; (3) over a tree with no vector layer the aggregate is empty
and the view is not changed; (4) a valid vector layer with a non-empty
extent and a valid CRS different from the canvas CRS contributes its
REPROJECTED extent when the transform succeeds, and is skipped (only it,
by (1)) when the transform raises. -/
theorem extent_aggregation_vector_only (host : ZoomHost) (tree : ZNode) :
    (∀ acc, accNode host tree acc =
      foldCombine acc ((zoomLayersNode tree).filterMap (zoomLayerContribution host)))
    ∧ (∀ ml : ZMapLayer, ml.ltype ≠ MLayerType.vectorL →
        zoomLayerContribution host (some ml) = none)
    ∧ ((∀ ol ∈ zoomLayersNode tree, ∀ ml : ZMapLayer, ol = some ml →
          ml.ltype ≠ MLayerType.vectorL) →
        accNode host tree none = none ∧ zoomToGroup host tree = (none, false))
    ∧ (∀ (ml : ZMapLayer) (ext : QRect), ml.valid = true →
        ml.ltype = MLayerType.vectorL → ml.extent = some ext →
        rectIsEmpty ext = false → (zoomLayerCrs ml).valid = true →
        zoomLayerCrs ml ≠ host.canvasCrs →
        zoomLayerContribution host (some ml) =
          (match host.transformBB (zoomLayerCrs ml) host.canvasCrs ext with
            | .ok ext2 => some ext2
            | .error _ => none)) := by
  have hnonvec : ∀ ml : ZMapLayer, ml.ltype ≠ MLayerType.vectorL →
      zoomLayerContribution host (some ml) = none := by
    intro ml h
    by_cases hv : ml.valid = true <;> simp [zoomLayerContribution, hv, h]
  refine ⟨accNode_eq_foldCombine host tree, hnonvec, ?_, ?_⟩
  · intro hall
    have hnil : (zoomLayersNode tree).filterMap (zoomLayerContribution host) = [] := by
      rw [List.filterMap_eq_nil_iff]
      intro ol hol
      rcases ol with _ | ml
      · rfl
      · exact hnonvec ml (hall (some ml) hol ml rfl)
    have hacc : accNode host tree none = none := by
      rw [accNode_eq_foldCombine host tree none, hnil]
      rfl
    refine ⟨hacc, ?_⟩
    by_cases hcv : host.canvasPresent = true <;> simp [zoomToGroup, hcv, hacc]
  · intro ml ext hvalid hvec hext hempty hcrsv hcrsne
    simp [zoomLayerContribution, hvalid, hvec, hext, hempty, hcrsv, hcrsne]

/-- A host with a present canvas in EPSG:3857 and an identity reprojection. -/
def sampleZoomHost : ZoomHost where
  canvasPresent := true
  canvasCrs := { authid := "EPSG:3857", valid := true }
  transformBB := fun _ _ r => .ok r

def sampleRasterLayer : ZMapLayer where
  valid := true
  ltype := .rasterL
  extent := some { xmin := 0, ymin := 0, xmax := 1, ymax := 1 }
  hasCrsAttr := true
  crs := { authid := "EPSG:4326", valid := true }

/-- A nested tree holding only a raster layer and an empty layer slot. -/
def sampleRasterTree : ZNode :=
  .zgroup [.zlayer (some sampleRasterLayer), .zgroup [.zlayer none]]

/-- Witness for C7: the all-raster tree aggregates to nothing and the view
is unchanged. -/
theorem extent_aggregation_vector_only_witness :
    accNode sampleZoomHost sampleRasterTree none = none ∧
      zoomToGroup sampleZoomHost sampleRasterTree = (none, false) :=
  (extent_aggregation_vector_only sampleZoomHost sampleRasterTree).2.2.1
    (by
      intro ol hol ml hml
      have hlayers : zoomLayersNode sampleRasterTree = [some sampleRasterLayer, none] := by
        simp [sampleRasterTree, zoomLayersNode, zoomLayersList]
      rw [hlayers] at hol
      simp only [List.mem_cons, List.mem_singleton, List.not_mem_nil, or_false] at hol
      rcases hol with rfl | rfl
      · cases hml
        decide
      · cases hml)

end Hazmapper
